import Mathlib

/-!
Verification development for the Quiz-party host logic.

The definitions below are a shallow embedding of the host-authoritative game
logic in `src/components/HostScreen.tsx` (with the shared data model of
`src/types.ts`, provided as `src/unnamed/part_000`).  JavaScript objects used
as string-keyed maps (`votes`, `firstVotes`) are embedded as association lists
kept in key-insertion order, which matches `Object.entries` enumeration order
for the non-integer-like keys used here.  `Date.now()` timestamps are `Nat`
parameters, `Math.floor(Math.random() * n)` is embedded as `rand % n` for an
arbitrary `rand : Nat`, and the asynchronous content-supplier calls
(`generateQuestions`) are oracles passed in as functions.  Handlers that call
`broadcastState` are embedded as functions returning the new state together
with the list of snapshots broadcast while handling.
-/

namespace QuizParty

/-- Game phases, from `src/types.ts` (`GamePhase`). -/
inductive GamePhase where
  | LOBBY
  | CATEGORY_SELECTION
  | LEVEL_INTRO
  | QUESTION
  | ANSWERS_REVEAL
  | ROUND_RESULT
  | LEVEL_COMPLETE
  | GAME_OVER
deriving DecidableEq, Repr

/-- Player record, from `src/types.ts` (`Player`).  `selectedCategory` and
`currentAnswer` are optional fields; `lastActionTime` is a `Date.now()`
timestamp. -/
structure Player where
  id : String
  name : String
  avatar : String
  score : Int
  lastActionTime : Nat
  selectedCategory : Option String
  currentAnswer : Option Nat
  roundScore : Int
deriving DecidableEq, Repr

/-- Question record, from `src/types.ts` (`Question`). -/
structure Question where
  text : String
  options : List String
  correctIndex : Nat
  category : String
  explanation : Option String
deriving DecidableEq, Repr

/-- The canonical host-owned state, from `src/types.ts` (`GameState`). -/
structure GameState where
  phase : GamePhase
  players : List Player
  currentLevel : Nat
  totalLevels : Nat
  currentQuestionIndex : Nat
  totalQuestionsInLevel : Nat
  currentQuestion : Option Question
  availableCategories : List String
  timeRemaining : Nat
  winnerId : Option String
  loading : Bool
  loadingMessage : String
deriving DecidableEq, Repr

/-- Player-to-host messages, from `src/types.ts` (`MessageType` and
`NetworkMessage`); the payload variants are those actually read by the host
(`HostScreen.tsx`, `handleMessage`). -/
inductive NetworkMessage where
  | join (payload : Player)
  | voteCategory (senderId : String) (category : String)
  | submitAnswer (senderId : String) (answerIndex : Nat)
  | requestState
  | requestNextStep
  | stateUpdate (payload : GameState)
  | playerJoined

/-- `QUESTION_TIME` in `HostScreen.tsx`. -/
def QUESTION_TIME : Nat := 8

/-- `BLITZ_QUESTION_COUNT` in `HostScreen.tsx`. -/
def BLITZ_QUESTION_COUNT : Nat := 12

/-- `LEVEL_QUESTION_COUNT` in `HostScreen.tsx`. -/
def LEVEL_QUESTION_COUNT : Nat := 8

/-- `MAX_PLAYERS` in `HostScreen.tsx`. -/
def MAX_PLAYERS : Nat := 4

/-- `INITIAL_STATE` in `HostScreen.tsx`. -/
def INITIAL_STATE : GameState :=
  { phase := .LOBBY
    players := []
    currentLevel := 1
    totalLevels := 4
    currentQuestionIndex := 0
    totalQuestionsInLevel := 8
    currentQuestion := none
    availableCategories := []
    timeRemaining := 0
    winnerId := none
    loading := false
    loadingMessage := "" }

/-- `addPlayer` in `HostScreen.tsx`: ignore a `JOIN` whose id is already
present (reconnect), reject a `JOIN` when the lobby is full; in every branch a
snapshot of the resulting state is broadcast.  The second component is the
list of snapshots broadcast while handling. -/
def addPlayer (newPlayer : Player) (s : GameState) : GameState × List GameState :=
  if (s.players.find? (fun p => p.id = newPlayer.id)).isSome then
    (s, [s])
  else if MAX_PLAYERS ≤ s.players.length then
    (s, [s])
  else
    let updated := { s with players := s.players ++ [newPlayer] }
    (updated, [updated])

/-- `handleCategoryVote` in `HostScreen.tsx`: record the vote of the sender and
timestamp; note there is no phase guard in the source. -/
def handleCategoryVote (playerId : String) (category : String) (now : Nat)
    (s : GameState) : GameState :=
  { s with players := s.players.map (fun p =>
      if p.id = playerId then
        { p with selectedCategory := some category, lastActionTime := now }
      else p) }

/-- `handleAnswerSubmit` in `HostScreen.tsx`: guarded so that answers are only
recorded during the `QUESTION` phase. -/
def handleAnswerSubmit (playerId : String) (answerIndex : Nat) (now : Nat)
    (s : GameState) : GameState :=
  if s.phase = GamePhase.QUESTION then
    { s with players := s.players.map (fun p =>
        if p.id = playerId then
          { p with currentAnswer := some answerIndex, lastActionTime := now }
        else p) }
  else s

/-- `startQuestionRound` in `HostScreen.tsx`: enter the `QUESTION` phase for
question `index`, clearing each `currentAnswer` and `roundScore`
(`startTimer` then resets `timeRemaining` to the same `QUESTION_TIME`). -/
def startQuestionRound (question : Question) (index : Nat) (s : GameState) : GameState :=
  { s with
      loading := false
      phase := .QUESTION
      currentQuestionIndex := index
      currentQuestion := some question
      timeRemaining := QUESTION_TIME
      players := s.players.map (fun p => { p with currentAnswer := none, roundScore := 0 }) }

/-- `revealAnswers` in `HostScreen.tsx`: score every player against the
current question (15 points for a correct answer, the strict `===` comparison
makes an unanswered question score 0) and enter `ANSWERS_REVEAL`. -/
def revealAnswers (s : GameState) : GameState :=
  match s.currentQuestion with
  | none => s
  | some currentQ =>
    let updatedPlayers := s.players.map (fun p =>
      let turnPoints : Int := if p.currentAnswer = some currentQ.correctIndex then 15 else 0
      { p with score := p.score + turnPoints, roundScore := turnPoints })
    { s with phase := .ANSWERS_REVEAL, players := updatedPlayers, timeRemaining := 0 }

/-- `nextTurn` in `HostScreen.tsx`: advance to question `currentIdx + 1` of
the queue, or to `LEVEL_COMPLETE` when the queue is exhausted. -/
def nextTurn (queue : List Question) (s : GameState) : GameState :=
  let nextIdx := s.currentQuestionIndex + 1
  if h : nextIdx < queue.length then
    startQuestionRound (queue.get ⟨nextIdx, h⟩) nextIdx s
  else
    { s with phase := .LEVEL_COMPLETE }

/-- Stable-descending insertion by `score`; `sortByScoreDesc` below is the
embedding of the stable (ES2019) `Array.prototype.sort` call
`[...prev.players].sort((a, b) => b.score - a.score)` in `endGame`. -/
def insertByScore (p : Player) : List Player → List Player
  | [] => [p]
  | q :: qs => if q.score ≤ p.score then p :: q :: qs else q :: insertByScore p qs

/-- Sorted copy of the players, descending by `score`, equal scores keeping
join order (stable sort, as ES2019 `Array.prototype.sort` guarantees). -/
def sortByScoreDesc : List Player → List Player
  | [] => []
  | p :: ps => insertByScore p (sortByScoreDesc ps)

/-- `endGame` in `HostScreen.tsx`: enter `GAME_OVER`, with `winnerId` the id
of the head of the players sorted by descending score (`sorted[0]?.id` is
`undefined` on an empty list). -/
def endGame (s : GameState) : GameState :=
  let sorted := sortByScoreDesc s.players
  { s with phase := .GAME_OVER, winnerId := sorted.head?.map Player.id }

/-- Synchronous part of `startGame` in `HostScreen.tsx` (up to the first
`await generateCategories`): enter `CATEGORY_SELECTION` in the loading
state. -/
def startGameSync (s : GameState) : GameState :=
  { s with phase := .CATEGORY_SELECTION, loading := true,
           loadingMessage := "Генерация категорий..." }

/-- Synchronous part of `handleLevelComplete` in `HostScreen.tsx` (up to the
first `await`): after level 4 set up the blitz level, after level 5 end the
game, otherwise advance to category selection for the next level. -/
def handleLevelCompleteSync (s : GameState) : GameState :=
  if s.totalLevels ≤ s.currentLevel then
    if s.currentLevel = 4 then
      { s with currentLevel := 5, loading := true,
               loadingMessage := "Финал! БЛИЦ!", phase := .LEVEL_INTRO }
    else if s.currentLevel = 5 then
      endGame s
    else
      startGameSync { s with currentLevel := s.currentLevel + 1 }
  else
    startGameSync { s with currentLevel := s.currentLevel + 1 }

/-- `handleNextStepRequest` in `HostScreen.tsx`: only the `ANSWERS_REVEAL`
and `LEVEL_COMPLETE` phases react to `REQUEST_NEXT_STEP`. -/
def handleNextStepRequest (queue : List Question) (s : GameState) : GameState :=
  if s.phase = GamePhase.ANSWERS_REVEAL then
    if queue.length ≤ s.currentQuestionIndex + 1 then
      { s with phase := .LEVEL_COMPLETE }
    else
      nextTurn queue s
  else if s.phase = GamePhase.LEVEL_COMPLETE then
    handleLevelCompleteSync s
  else s

/-- Truthiness of `p.selectedCategory` as tested by
`if (p.selectedCategory)` in `resolveCategoryVote`: defined and non-empty. -/
def voteKey (p : Player) : Option String :=
  match p.selectedCategory with
  | some c => if c = "" then none else some c
  | none => none

/-- One entry of the vote tally: a category together with its `votes[cat]`
count and its `firstVotes[cat]` value as maintained by the source. -/
structure VoteEntry where
  cat : String
  count : Nat
  firstT : Nat
deriving DecidableEq, Repr

/-- Apply one more vote at time `t` to an existing tally entry.  The
`firstVotes` update in the source is
`if (!firstVotes[cat] || t < firstVotes[cat]) firstVotes[cat] = t`, where a
stored value of `0` is falsy. -/
def updEntry (t : Nat) (e : VoteEntry) : VoteEntry :=
  { e with count := e.count + 1,
           firstT := if e.firstT = 0 ∨ t < e.firstT then t else e.firstT }

/-- Record one vote for `c` at time `t` in the tally; a fresh key is appended
at the end, matching JavaScript object key-insertion order. -/
def addVote : List VoteEntry → String → Nat → List VoteEntry
  | [], c, t => [⟨c, 1, t⟩]
  | e :: es, c, t =>
    if e.cat = c then updEntry t e :: es else e :: addVote es c t

/-- The `currentPlayers.forEach` body of `resolveCategoryVote`: players
without a truthy `selectedCategory` are skipped. -/
def tallyStep (acc : List VoteEntry) (p : Player) : List VoteEntry :=
  match voteKey p with
  | some c => addVote acc c p.lastActionTime
  | none => acc

/-- Tally the remaining players into an accumulated tally. -/
def tallyGo (acc : List VoteEntry) (ps : List Player) : List VoteEntry :=
  ps.foldl tallyStep acc

/-- The full `votes` and `firstVotes` tally of `resolveCategoryVote`. -/
def tallyVotes (ps : List Player) : List VoteEntry := tallyGo [] ps

/-- Lookup of a tally entry by category, as `votes[cat]`
or `firstVotes[cat]`. -/
def lookupEntry (acc : List VoteEntry) (c : String) : Option VoteEntry :=
  acc.find? (fun e => e.cat = c)

/-- One step of the `Object.entries(votes).forEach` winner fold in
`resolveCategoryVote`.  In the tie branch the source compares
`firstVotes[cat] < firstVotes[winner]`; when `winner` has no `firstVotes`
entry (it is still the initial `currentCategories[0]`, or `undefined`), the
comparison is against `undefined` and is false. -/
def pickStep (all : List VoteEntry) (wm : Option String × Int) (e : VoteEntry) :
    Option String × Int :=
  if wm.2 < (e.count : Int) then (some e.cat, (e.count : Int))
  else if (e.count : Int) = wm.2 then
    match wm.1 with
    | some wc =>
      match lookupEntry all wc with
      | some we => if e.firstT < we.firstT then (some e.cat, wm.2) else wm
      | none => wm
    | none => wm
  else wm

/-- The winner computation of `resolveCategoryVote` in `HostScreen.tsx`:
tally the votes; with no votes pick `currentCategories[floor(random * len)]`
(embedded as index `rand % len`, and `none` for an empty list as in the
source, where the access yields `undefined`); otherwise fold over the tally
entries starting from `currentCategories[0]` and `maxVotes = -1`. -/
def resolveWinner (players : List Player) (cats : List String) (rand : Nat) :
    Option String :=
  let entries := tallyVotes players
  if entries.isEmpty then cats.get? (rand % cats.length)
  else (entries.foldl (pickStep entries) (cats.get? 0, -1)).1

/-- Embedding of JavaScript `String.prototype.trim`: drop leading and
trailing whitespace. -/
def jsTrim (s : String) : String :=
  ⟨((s.data.dropWhile Char.isWhitespace).reverse.dropWhile Char.isWhitespace).reverse⟩

/-- Embedding of JavaScript `String.prototype.toLowerCase`: lower-case each
character. -/
def jsToLower (s : String) : String := ⟨s.data.map Char.toLower⟩

/-- The normalization of `fetchUniqueQuestions`:
`q.text.trim().toLowerCase()`. -/
def normKey (q : Question) : String := jsToLower (jsTrim q.text)

/-- The `rawQuestions.filter` body of `fetchUniqueQuestions`: drop a
candidate whose key is already in the registry, otherwise accept it and add
its key to the registry (so a later duplicate inside the same batch is also
dropped). -/
def filterUnique : List Question → List String → List Question × List String
  | [], hist => ([], hist)
  | q :: qs, hist =>
    let key := normKey q
    if key ∈ hist then filterUnique qs hist
    else
      let rest := filterUnique qs (key :: hist)
      (q :: rest.1, rest.2)

/-- Result of one `fetchUniqueQuestions` call: the served questions, the
updated registry (`questionHistoryRef`), and a log recording, for each
supplier attempt, the number of questions gathered before the attempt and the
`requestCount` passed to the supplier. -/
structure FetchResult where
  questions : List Question
  hist : List String
  log : List (Nat × Nat)
deriving Repr

/-- The `while` loop of `fetchUniqueQuestions`, with
`fuel = MAX_ATTEMPTS - attempts` remaining iterations.  `gen i n` is the
supplier response (`generateQuestions`) to the `i`-th attempt when asked for
`n` candidates. -/
def fetchGo (gen : Nat → Nat → List Question) (totalNeeded : Nat) :
    Nat → Nat → List Question → List String → List (Nat × Nat) → FetchResult
  | 0, _, gathered, hist, log => ⟨gathered, hist, log⟩
  | fuel + 1, attempts, gathered, hist, log =>
    if gathered.length < totalNeeded then
      let neededNow := totalNeeded - gathered.length
      let requestCount := max neededNow 4
      let raw := gen attempts requestCount
      let filtered := filterUnique raw hist
      fetchGo gen totalNeeded fuel (attempts + 1) (gathered ++ filtered.1)
        filtered.2 (log ++ [(gathered.length, requestCount)])
    else ⟨gathered, hist, log⟩

/-- `fetchUniqueQuestions` in `HostScreen.tsx`: loop for at most
`MAX_ATTEMPTS = 3` supplier attempts and return
`gatheredQuestions.slice(0, totalNeeded)`. -/
def fetchUniqueQuestions (gen : Nat → Nat → List Question) (totalNeeded : Nat)
    (hist : List String) : FetchResult :=
  let r := fetchGo gen totalNeeded 3 0 [] hist []
  { r with questions := r.questions.take totalNeeded }

/-- A whole session of fetch calls threading the session-scoped registry:
`sgen i` is the supplier as seen by the `i`-th call, `n :: rest` the
requested question counts.  Returns all served questions and the final
registry. -/
def runSessionGo (sgen : Nat → Nat → Nat → List Question) :
    Nat → List Question → List String → List Nat → List Question × List String
  | _, served, hist, [] => (served, hist)
  | i, served, hist, n :: rest =>
    let r := fetchUniqueQuestions (sgen i) n hist
    runSessionGo sgen (i + 1) (served ++ r.questions) r.hist rest

/-- A session of fetch calls starting from the empty registry (the registry
is created empty when the host mounts). -/
def runSession (sgen : Nat → Nat → Nat → List Question) (requests : List Nat) :
    List Question × List String :=
  runSessionGo sgen 0 [] [] requests

/-- The `resolveCategoryVote` pipeline of `HostScreen.tsx` after the timer
fires: resolve the winner, enter the loading state, fetch enough
unique questions, record the actual returned length in
`totalQuestionsInLevel`, and start the first round only when at least one
question came back.  Returns the new state, the new questions queue, and the
updated registry. -/
def resolveCategoryVoteStep (rand : Nat) (gen : Nat → Nat → List Question)
    (hist : List String) (s : GameState) : GameState × List Question × List String :=
  let winner := resolveWinner s.players s.availableCategories rand
  let s1 := { s with loading := true,
                     loadingMessage :=
                       "Выбрана тема: " ++ winner.getD "undefined" ++ ". Генерируем вопросы..." }
  let count := if s.currentLevel = 5 then BLITZ_QUESTION_COUNT else LEVEL_QUESTION_COUNT
  let r := fetchUniqueQuestions gen count hist
  let s2 := { s1 with totalQuestionsInLevel := r.questions.length }
  if h : 0 < r.questions.length then
    (startQuestionRound (r.questions.get ⟨0, h⟩) 0 s2, r.questions, r.hist)
  else
    (s2, r.questions, r.hist)

/-- `handleMessage` in `HostScreen.tsx`: dispatch on the message tag; message
types without a `case` fall through to a no-op.  The second component is the
list of snapshots broadcast while handling. -/
def handleMessage (queue : List Question) (now : Nat) (msg : NetworkMessage)
    (s : GameState) : GameState × List GameState :=
  match msg with
  | .join payload => addPlayer payload s
  | .voteCategory senderId category => (handleCategoryVote senderId category now s, [])
  | .submitAnswer senderId answerIndex => (handleAnswerSubmit senderId answerIndex now s, [])
  | .requestState => (s, [s])
  | .requestNextStep => (handleNextStepRequest queue s, [])
  | .stateUpdate _ => (s, [])
  | .playerJoined => (s, [])

/-! Specification-side measures, used to state the claims about the
definitions above. -/

/-- The players whose (truthy) vote is for category `c`. -/
def votersFor (ps : List Player) (c : String) : List Player :=
  ps.filter (fun p => voteKey p = some c)

/-- Number of votes cast for category `c`: one vote per player with a truthy
`selectedCategory`. -/
def votesFor (ps : List Player) (c : String) : Nat := (votersFor ps c).length

/-- Minimum of a list of timestamps, `none` on the empty list. -/
def minTimes : List Nat → Option Nat
  | [] => none
  | t :: ts =>
    match minTimes ts with
    | none => some t
    | some m => some (min t m)

/-- The earliest vote time for category `c`: minimum `lastActionTime` among
the voters of `c`. -/
def firstVoteTime (ps : List Player) (c : String) : Option Nat :=
  minTimes ((votersFor ps c).map Player.lastActionTime)

/-- The round score the Score Engine assigns for one question given a
submitted answer. -/
def roundPoints (q : Question) (ans : Option Nat) : Int :=
  if ans = some q.correctIndex then 15 else 0

/-- Give every player the answer chosen for them by `a` (by player id);
together with `startQuestionRound` this reaches every per-round answer
combination that submissions during the `QUESTION` phase can produce. -/
def setAnswers (a : String → Option Nat) (s : GameState) : GameState :=
  { s with players := s.players.map (fun p => { p with currentAnswer := a p.id }) }

/-- One full question round: start the round (clearing answers and round
scores), let the players answer, then reveal. -/
def playRound (s : GameState) (r : Question × (String → Option Nat)) : GameState :=
  revealAnswers (setAnswers r.2 (startQuestionRound r.1 (s.currentQuestionIndex + 1) s))

/-- A sequence of question rounds, each followed by its reveal. -/
def runReveals (rounds : List (Question × (String → Option Nat))) (s : GameState) :
    GameState :=
  rounds.foldl playRound s

/-- The earliest-in-list player with maximal score, `none` on the empty
list. -/
def firstMax : List Player → Option Player
  | [] => none
  | p :: ps =>
    match firstMax ps with
    | none => some p
    | some q => if q.score ≤ p.score then some p else some q

/-- The count stored in the tally for category `c` (0 when absent). -/
def entryCount (acc : List VoteEntry) (c : String) : Nat :=
  ((lookupEntry acc c).map VoteEntry.count).getD 0

/-- The `firstVotes` value stored in the tally for category `c`. -/
def entryFt (acc : List VoteEntry) (c : String) : Option Nat :=
  (lookupEntry acc c).map VoteEntry.firstT

/-- Minimum of two optional timestamps. -/
def optMin : Option Nat → Option Nat → Option Nat
  | none, b => b
  | some a, none => some a
  | some a, some b => some (min a b)

/-- Invariant of the winner fold of `resolveCategoryVote`: after processing
the prefix `pre` of the tally, the accumulator either is still the initial
one (`maxVotes = -1`) or names a max-count entry of `pre` whose stored first
vote is minimal among the max-count entries of `pre`. -/
def PickInv (pre : List VoteEntry) (wm : Option String × Int) : Prop :=
  (pre = [] → wm.2 = -1) ∧
  (pre ≠ [] → ∃ e ∈ pre, wm.1 = some e.cat ∧ wm.2 = (e.count : Int) ∧
    (∀ f ∈ pre, f.count ≤ e.count) ∧
    (∀ f ∈ pre, f.count = e.count → e.firstT ≤ f.firstT))

/-! Concrete sample data for witnesses and counterexamples. -/

/-- A player with the given id, vote and timestamp. -/
def mkVoter (i : String) (c : Option String) (t : Nat) : Player :=
  ⟨i, i, "A", 0, t, c, none, 0⟩

/-- Sample question. -/
def sampleQ : Question := ⟨"Q1", ["a", "b", "c", "d"], 2, "cat", none⟩

/-- A lobby with one player. -/
def sampleLobby : GameState :=
  { INITIAL_STATE with players := [mkVoter "p1" none 0] }

/-- A lobby at capacity (4 players). -/
def fullLobby : GameState :=
  { INITIAL_STATE with players :=
      [mkVoter "p1" none 0, mkVoter "p2" none 0, mkVoter "p3" none 0, mkVoter "p4" none 0] }

/-- A finished game with one player. -/
def gameOverState : GameState :=
  { INITIAL_STATE with phase := .GAME_OVER, players := [mkVoter "g1" none 0],
                       winnerId := some "g1" }

/-- A category-selection state with two offered categories and no votes. -/
def catSelState : GameState :=
  { INITIAL_STATE with phase := .CATEGORY_SELECTION,
                       players := [mkVoter "p1" none 0],
                       availableCategories := ["A", "B"] }

/-- An answers-reveal state on the last (only) question of level 1. -/
def revealLastState : GameState :=
  { INITIAL_STATE with phase := .ANSWERS_REVEAL,
                       players := [mkVoter "p1" none 0],
                       currentQuestionIndex := 0,
                       currentQuestion := some sampleQ,
                       totalQuestionsInLevel := 1 }

/-- The vote snapshot refuting the claimed tie-break: categories A and B are
tied two votes each, the earliest A voter acted at time 0, the earliest B
voter at time 30. -/
def cxTiePlayers : List Player :=
  [mkVoter "p1" (some "A") 0, mkVoter "p2" (some "A") 50,
   mkVoter "p3" (some "B") 30, mkVoter "p4" (some "B") 40]

/-- A supplier that never returns any question. -/
def emptyGen : Nat → Nat → List Question := fun _ _ => []

/-- A supplier that always returns the requested number of copies of the same
fixed question (the worst duplicate-collision case). -/
def constGen : Nat → Nat → List Question := fun _ n => List.replicate n sampleQ

/-! Helper lemmas. -/

lemma tallyGo_no_votes (ps : List Player) (acc : List VoteEntry)
    (h : ∀ p ∈ ps, voteKey p = none) : tallyGo acc ps = acc := by
  induction ps generalizing acc with
  | nil => rfl
  | cons p rest ih =>
    have hp : voteKey p = none := h p (by simp)
    have hstep : tallyStep acc p = acc := by simp [tallyStep, hp]
    show List.foldl tallyStep acc (p :: rest) = acc
    rw [List.foldl_cons]
    rw [hstep]
    exact ih acc (fun q hq => h q (by simp [hq]))

lemma revealAnswers_players_eq (s : GameState) (q : Question)
    (hq : s.currentQuestion = some q) :
    (revealAnswers s).players = s.players.map (fun p =>
      { p with score := p.score + roundPoints q p.currentAnswer,
               roundScore := roundPoints q p.currentAnswer }) := by
  simp only [revealAnswers, hq, roundPoints]

lemma playRound_players (s : GameState) (r : Question × (String → Option Nat)) :
    (playRound s r).players = s.players.map (fun p =>
      { p with currentAnswer := r.2 p.id,
               score := p.score + roundPoints r.1 (r.2 p.id),
               roundScore := roundPoints r.1 (r.2 p.id) }) := by
  simp only [playRound, revealAnswers, setAnswers, startQuestionRound, roundPoints,
    List.map_map]
  rfl

lemma runReveals_score_aux (rounds : List (Question × (String → Option Nat))) :
    ∀ (s : GameState) (i : Nat) (hi : i < s.players.length),
      ∃ h2 : i < (runReveals rounds s).players.length,
        (runReveals rounds s).players[i].score
            = s.players[i].score
              + (rounds.map (fun r => roundPoints r.1 (r.2 s.players[i].id))).sum ∧
        (runReveals rounds s).players[i].id = s.players[i].id := by
  induction rounds with
  | nil =>
    intro s i hi
    exact ⟨hi, by simp [runReveals], by simp [runReveals]⟩
  | cons r rest ih =>
    intro s i hi
    have hrw : runReveals (r :: rest) s = runReveals rest (playRound s r) := by
      simp [runReveals]
    have hlen : (playRound s r).players.length = s.players.length := by
      rw [playRound_players]; simp
    have hi2 : i < (playRound s r).players.length := by rw [hlen]; exact hi
    obtain ⟨h2, hsc, hid⟩ := ih (playRound s r) i hi2
    have hget : (playRound s r).players[i] =
        { s.players[i] with
          currentAnswer := r.2 s.players[i].id,
          score := s.players[i].score + roundPoints r.1 (r.2 s.players[i].id),
          roundScore := roundPoints r.1 (r.2 s.players[i].id) } := by
      simp [playRound_players]
    rw [hrw]
    refine ⟨h2, ?_, ?_⟩
    · rw [hsc, hget]
      simp [add_assoc]
    · rw [hid, hget]

lemma lookupEntry_cons (e : VoteEntry) (es : List VoteEntry) (c : String) :
    lookupEntry (e :: es) c = if e.cat = c then some e else lookupEntry es c := by
  by_cases h : e.cat = c <;> simp [lookupEntry, List.find?_cons, h]

lemma entryCount_cons (e : VoteEntry) (es : List VoteEntry) (c : String) :
    entryCount (e :: es) c = if e.cat = c then e.count else entryCount es c := by
  by_cases h : e.cat = c <;> simp [entryCount, lookupEntry_cons, h]

lemma entryFt_cons (e : VoteEntry) (es : List VoteEntry) (c : String) :
    entryFt (e :: es) c = if e.cat = c then some e.firstT else entryFt es c := by
  by_cases h : e.cat = c <;> simp [entryFt, lookupEntry_cons, h]

lemma updEntry_cat (t : Nat) (e : VoteEntry) : (updEntry t e).cat = e.cat := rfl

lemma updEntry_count (t : Nat) (e : VoteEntry) : (updEntry t e).count = e.count + 1 := rfl

lemma updEntry_firstT_nonzero (t : Nat) (e : VoteEntry) (ht : t ≠ 0)
    (he : e.firstT ≠ 0) : (updEntry t e).firstT = min t e.firstT := by
  simp only [updEntry, he, false_or]
  rcases Nat.lt_trichotomy t e.firstT with h | h | h
  · rw [if_pos h, min_eq_left (le_of_lt h)]
  · rw [h]; simp
  · rw [if_neg (by omega), min_eq_right (le_of_lt h)]

lemma addVote_count_self (acc : List VoteEntry) (c : String) (t : Nat) :
    entryCount (addVote acc c t) c = entryCount acc c + 1 := by
  induction acc with
  | nil => simp [addVote, entryCount, lookupEntry]
  | cons e es ih =>
    by_cases h : e.cat = c
    · simp only [addVote, if_pos h]
      rw [entryCount_cons, entryCount_cons, if_pos (by rw [updEntry_cat]; exact h),
        if_pos h, updEntry_count]
    · simp only [addVote, if_neg h]
      rw [entryCount_cons, entryCount_cons, if_neg h, if_neg h, ih]

lemma addVote_count_other (acc : List VoteEntry) (c d : String) (t : Nat)
    (hne : d ≠ c) : entryCount (addVote acc c t) d = entryCount acc d := by
  induction acc with
  | nil =>
    have hcd : ¬ c = d := fun hh => hne hh.symm
    simp [addVote, entryCount, lookupEntry, hcd]
  | cons e es ih =>
    by_cases h : e.cat = c
    · simp only [addVote, if_pos h]
      rw [entryCount_cons, entryCount_cons, updEntry_cat]
      have hed : ¬ e.cat = d := by rw [h]; exact fun hh => hne hh.symm
      rw [if_neg hed, if_neg hed]
    · simp only [addVote, if_neg h]
      rw [entryCount_cons, entryCount_cons, ih]

lemma addVote_ft_self (acc : List VoteEntry) (c : String) (t : Nat)
    (hnz : ∀ e ∈ acc, e.firstT ≠ 0) (ht : t ≠ 0) :
    entryFt (addVote acc c t) c = optMin (some t) (entryFt acc c) := by
  induction acc with
  | nil => simp [addVote, entryFt, lookupEntry, optMin]
  | cons e es ih =>
    by_cases h : e.cat = c
    · simp only [addVote, if_pos h]
      rw [entryFt_cons, entryFt_cons, if_pos (by rw [updEntry_cat]; exact h), if_pos h,
        updEntry_firstT_nonzero t e ht (hnz e (by simp))]
      rfl
    · simp only [addVote, if_neg h]
      rw [entryFt_cons, entryFt_cons, if_neg h, if_neg h,
        ih (fun f hf => hnz f (by simp [hf]))]

lemma addVote_ft_other (acc : List VoteEntry) (c d : String) (t : Nat)
    (hne : d ≠ c) : entryFt (addVote acc c t) d = entryFt acc d := by
  induction acc with
  | nil =>
    have hcd : ¬ c = d := fun hh => hne hh.symm
    simp [addVote, entryFt, lookupEntry, hcd]
  | cons e es ih =>
    by_cases h : e.cat = c
    · simp only [addVote, if_pos h]
      rw [entryFt_cons, entryFt_cons, updEntry_cat]
      have hed : ¬ e.cat = d := by rw [h]; exact fun hh => hne hh.symm
      rw [if_neg hed, if_neg hed]
    · simp only [addVote, if_neg h]
      rw [entryFt_cons, entryFt_cons, ih]

lemma addVote_ft_nonzero (acc : List VoteEntry) (c : String) (t : Nat)
    (hnz : ∀ e ∈ acc, e.firstT ≠ 0) (ht : t ≠ 0) :
    ∀ e ∈ addVote acc c t, e.firstT ≠ 0 := by
  induction acc with
  | nil =>
    intro e he
    simp [addVote] at he
    rw [he]
    exact ht
  | cons f fs ih =>
    intro e he
    by_cases h : f.cat = c
    · simp only [addVote, if_pos h] at he
      rcases List.mem_cons.mp he with h1 | h2
      · subst h1
        simp only [updEntry]
        split
        · exact ht
        · exact hnz f (by simp)
      · exact hnz e (by simp [h2])
    · simp only [addVote, if_neg h] at he
      rcases List.mem_cons.mp he with h1 | h2
      · subst h1; exact hnz e (by simp)
      · exact ih (fun g hg => hnz g (by simp [hg])) e h2

lemma addVote_cats (acc : List VoteEntry) (c : String) (t : Nat) :
    (addVote acc c t).map VoteEntry.cat =
      if c ∈ acc.map VoteEntry.cat then acc.map VoteEntry.cat
      else acc.map VoteEntry.cat ++ [c] := by
  induction acc with
  | nil => simp [addVote]
  | cons e es ih =>
    by_cases h : e.cat = c
    · simp [addVote, h, updEntry_cat]
    · simp only [addVote, if_neg h, List.map_cons, ih]
      have hce : ¬ c = e.cat := fun hh => h hh.symm
      have hcc : (c ∈ e.cat :: es.map VoteEntry.cat) ↔ (c ∈ es.map VoteEntry.cat) := by
        rw [List.mem_cons]
        exact ⟨fun hh => hh.resolve_left hce, Or.inr⟩
      by_cases hm : c ∈ es.map VoteEntry.cat
      · rw [if_pos hm, if_pos (hcc.mpr hm)]
      · rw [if_neg hm, if_neg (fun hh => hm (hcc.mp hh)), List.cons_append]

lemma addVote_count_pos (acc : List VoteEntry) (c : String) (t : Nat)
    (hpos : ∀ e ∈ acc, 0 < e.count) : ∀ e ∈ addVote acc c t, 0 < e.count := by
  induction acc with
  | nil =>
    intro e he
    simp [addVote] at he
    rw [he]
    exact Nat.one_pos
  | cons f fs ih =>
    intro e he
    by_cases h : f.cat = c
    · simp only [addVote, if_pos h] at he
      rcases List.mem_cons.mp he with h1 | h2
      · subst h1; rw [updEntry_count]; omega
      · exact hpos e (by simp [h2])
    · simp only [addVote, if_neg h] at he
      rcases List.mem_cons.mp he with h1 | h2
      · subst h1; exact hpos e (by simp)
      · exact ih (fun g hg => hpos g (by simp [hg])) e h2

lemma optMin_none_right (a : Option Nat) : optMin a none = a := by
  cases a <;> rfl

lemma optMin_comm (a b : Option Nat) : optMin a b = optMin b a := by
  cases a <;> cases b <;> simp [optMin, Nat.min_comm]

lemma optMin_assoc (a b c : Option Nat) :
    optMin (optMin a b) c = optMin a (optMin b c) := by
  cases a <;> cases b <;> cases c <;> simp [optMin, Nat.min_assoc]

lemma votesFor_cons (p : Player) (ps : List Player) (c : String) :
    votesFor (p :: ps) c = (if voteKey p = some c then 1 else 0) + votesFor ps c := by
  by_cases h : voteKey p = some c <;>
    simp [votesFor, votersFor, List.filter_cons, h] <;> omega

lemma minTimes_cons (t : Nat) (ts : List Nat) :
    minTimes (t :: ts) = optMin (some t) (minTimes ts) := by
  cases h : minTimes ts <;> simp [minTimes, h, optMin]

lemma firstVoteTime_cons (p : Player) (ps : List Player) (c : String) :
    firstVoteTime (p :: ps) c =
      if voteKey p = some c then optMin (some p.lastActionTime) (firstVoteTime ps c)
      else firstVoteTime ps c := by
  by_cases h : voteKey p = some c <;>
    simp [firstVoteTime, votersFor, List.filter_cons, h, minTimes_cons]

lemma tallyGo_cons (acc : List VoteEntry) (p : Player) (ps : List Player) :
    tallyGo acc (p :: ps) = tallyGo (tallyStep acc p) ps := rfl

lemma tallyStep_vote (acc : List VoteEntry) (p : Player) (c : String)
    (h : voteKey p = some c) : tallyStep acc p = addVote acc c p.lastActionTime := by
  simp [tallyStep, h]

lemma tallyStep_novote (acc : List VoteEntry) (p : Player)
    (h : voteKey p = none) : tallyStep acc p = acc := by
  simp [tallyStep, h]

lemma tallyGo_count (ps : List Player) :
    ∀ (acc : List VoteEntry) (c : String),
      entryCount (tallyGo acc ps) c = entryCount acc c + votesFor ps c := by
  induction ps with
  | nil =>
    intro acc c
    simp [tallyGo, votesFor, votersFor]
  | cons p rest ih =>
    intro acc c
    rw [tallyGo_cons, votesFor_cons]
    cases hk : voteKey p with
    | none =>
      rw [tallyStep_novote acc p hk, ih]
      simp
    | some c0 =>
      rw [tallyStep_vote acc p c0 hk, ih]
      by_cases hc : c0 = c
      · subst hc
        rw [addVote_count_self]
        simp
        omega
      · rw [addVote_count_other acc c0 c _ (fun hh => hc hh.symm)]
        simp [hc]

lemma tallyGo_ft_nonzero (ps : List Player) :
    ∀ acc : List VoteEntry, (∀ p ∈ ps, p.lastActionTime ≠ 0) →
      (∀ e ∈ acc, e.firstT ≠ 0) → ∀ e ∈ tallyGo acc ps, e.firstT ≠ 0 := by
  induction ps with
  | nil =>
    intro acc _ hacc e he
    exact hacc e he
  | cons p rest ih =>
    intro acc hps hacc e he
    rw [tallyGo_cons] at he
    cases hk : voteKey p with
    | none =>
      rw [tallyStep_novote acc p hk] at he
      exact ih acc (fun q hq => hps q (by simp [hq])) hacc e he
    | some c0 =>
      rw [tallyStep_vote acc p c0 hk] at he
      exact ih _ (fun q hq => hps q (by simp [hq]))
        (addVote_ft_nonzero acc c0 p.lastActionTime hacc (hps p (by simp))) e he

lemma tallyGo_ft (ps : List Player) :
    ∀ (acc : List VoteEntry) (c : String), (∀ p ∈ ps, p.lastActionTime ≠ 0) →
      (∀ e ∈ acc, e.firstT ≠ 0) →
      entryFt (tallyGo acc ps) c = optMin (entryFt acc c) (firstVoteTime ps c) := by
  induction ps with
  | nil =>
    intro acc c _ _
    simp [tallyGo, firstVoteTime, votersFor, minTimes, optMin_none_right]
  | cons p rest ih =>
    intro acc c hps hacc
    rw [tallyGo_cons, firstVoteTime_cons]
    have hp0 : p.lastActionTime ≠ 0 := hps p (by simp)
    cases hk : voteKey p with
    | none =>
      rw [tallyStep_novote acc p hk]
      rw [if_neg (by simp)]
      exact ih acc c (fun q hq => hps q (by simp [hq])) hacc
    | some c0 =>
      rw [tallyStep_vote acc p c0 hk]
      have hrest := ih (addVote acc c0 p.lastActionTime) c
        (fun q hq => hps q (by simp [hq]))
        (addVote_ft_nonzero acc c0 p.lastActionTime hacc hp0)
      by_cases hc : c0 = c
      · subst hc
        rw [hrest, addVote_ft_self acc c0 p.lastActionTime hacc hp0, if_pos rfl,
          ← optMin_assoc, optMin_comm (entryFt acc c0) (some p.lastActionTime)]
      · rw [hrest, addVote_ft_other acc c0 c _ (fun hh => hc hh.symm)]
        rw [if_neg (by simp [hc])]

lemma tallyGo_cats_nodup (ps : List Player) :
    ∀ acc : List VoteEntry, ((acc.map VoteEntry.cat).Nodup) →
      ((tallyGo acc ps).map VoteEntry.cat).Nodup := by
  induction ps with
  | nil =>
    intro acc h
    exact h
  | cons p rest ih =>
    intro acc h
    rw [tallyGo_cons]
    cases hk : voteKey p with
    | none =>
      rw [tallyStep_novote acc p hk]
      exact ih acc h
    | some c0 =>
      rw [tallyStep_vote acc p c0 hk]
      apply ih
      rw [addVote_cats]
      by_cases hm : c0 ∈ acc.map VoteEntry.cat
      · rw [if_pos hm]; exact h
      · rw [if_neg hm]
        simp [List.nodup_append, h, hm]

lemma tallyGo_count_pos (ps : List Player) :
    ∀ acc : List VoteEntry, (∀ e ∈ acc, 0 < e.count) →
      ∀ e ∈ tallyGo acc ps, 0 < e.count := by
  induction ps with
  | nil =>
    intro acc h e he
    exact h e he
  | cons p rest ih =>
    intro acc h e he
    rw [tallyGo_cons] at he
    cases hk : voteKey p with
    | none =>
      rw [tallyStep_novote acc p hk] at he
      exact ih acc h e he
    | some c0 =>
      rw [tallyStep_vote acc p c0 hk] at he
      exact ih _ (addVote_count_pos acc c0 p.lastActionTime h) e he

lemma lookupEntry_of_mem (acc : List VoteEntry) (e : VoteEntry)
    (hnd : (acc.map VoteEntry.cat).Nodup) (he : e ∈ acc) :
    lookupEntry acc e.cat = some e := by
  induction acc with
  | nil => cases he
  | cons f fs ih =>
    rw [lookupEntry_cons]
    rcases List.mem_cons.mp he with h1 | h2
    · subst h1
      rw [if_pos rfl]
    · by_cases hfc : f.cat = e.cat
      · exfalso
        simp only [List.map_cons, List.nodup_cons] at hnd
        apply hnd.1
        rw [hfc]
        exact List.mem_map.mpr ⟨e, h2, rfl⟩
      · rw [if_neg hfc]
        apply ih _ h2
        simp only [List.map_cons, List.nodup_cons] at hnd
        exact hnd.2

lemma lookupEntry_eq_some (acc : List VoteEntry) (c : String) (e : VoteEntry)
    (h : lookupEntry acc c = some e) : e ∈ acc ∧ e.cat = c := by
  refine ⟨List.mem_of_find?_eq_some h, ?_⟩
  have := List.find?_some h
  simpa using this

lemma entryCount_pos_elim (acc : List VoteEntry) (c : String)
    (h : entryCount acc c ≠ 0) :
    ∃ e ∈ acc, e.cat = c ∧ e.count = entryCount acc c ∧
      entryFt acc c = some e.firstT := by
  cases hl : lookupEntry acc c with
  | none =>
    exfalso
    apply h
    simp [entryCount, hl]
  | some e =>
    obtain ⟨hmem, hcat⟩ := lookupEntry_eq_some acc c e hl
    exact ⟨e, hmem, hcat, by simp [entryCount, hl], by simp [entryFt, hl]⟩

lemma pickStep_gt (all : List VoteEntry) (wm : Option String × Int) (e0 : VoteEntry)
    (h : wm.2 < (e0.count : Int)) :
    pickStep all wm e0 = (some e0.cat, (e0.count : Int)) := by
  simp only [pickStep, if_pos h]

lemma pickStep_tie (all : List VoteEntry) (wm : Option String × Int) (e0 ew : VoteEntry)
    (h1 : wm.1 = some ew.cat) (h2 : ¬ wm.2 < (e0.count : Int))
    (h3 : (e0.count : Int) = wm.2) (hl : lookupEntry all ew.cat = some ew) :
    pickStep all wm e0 =
      if e0.firstT < ew.firstT then (some e0.cat, wm.2) else wm := by
  simp only [pickStep, if_neg h2, if_pos h3, h1, hl]

lemma pickStep_lt (all : List VoteEntry) (wm : Option String × Int) (e0 : VoteEntry)
    (h2 : ¬ wm.2 < (e0.count : Int)) (h3 : ¬ (e0.count : Int) = wm.2) :
    pickStep all wm e0 = wm := by
  simp only [pickStep, if_neg h2, if_neg h3]

lemma pickStep_inv (all pre : List VoteEntry) (wm : Option String × Int)
    (e0 : VoteEntry) (hall : (all.map VoteEntry.cat).Nodup)
    (hpos : ∀ f ∈ all, 0 < f.count) (hsub : ∀ f ∈ pre, f ∈ all) (he0 : e0 ∈ all)
    (hinv : PickInv pre wm) : PickInv (pre ++ [e0]) (pickStep all wm e0) := by
  obtain ⟨hinit, hne⟩ := hinv
  by_cases hpre : pre = []
  · subst hpre
    have hm : wm.2 = -1 := hinit rfl
    have hgt : wm.2 < (e0.count : Int) := by
      have := hpos e0 he0
      omega
    rw [pickStep_gt all wm e0 hgt]
    refine ⟨by simp, fun _ => ⟨e0, by simp, rfl, rfl, ?_, ?_⟩⟩
    · intro f hf
      simp at hf
      subst hf
      exact le_refl _
    · intro f hf _
      simp at hf
      subst hf
      exact le_refl _
  · obtain ⟨ew, hew, hw1, hw2, hmax, htie⟩ := hne hpre
    rcases Int.lt_trichotomy wm.2 (e0.count : Int) with hlt | heq | hgt
    · rw [pickStep_gt all wm e0 hlt]
      refine ⟨by simp, fun _ => ⟨e0, by simp, rfl, rfl, ?_, ?_⟩⟩
      · intro f hf
        rcases List.mem_append.mp hf with h1 | h2
        · have hf1 := hmax f h1
          have hf2 : (ew.count : Int) < (e0.count : Int) := by rw [← hw2]; exact hlt
          omega
        · simp at h2
          subst h2
          exact le_refl _
      · intro f hf hfc
        rcases List.mem_append.mp hf with h1 | h2
        · exfalso
          have hf1 := hmax f h1
          have hf2 : (ew.count : Int) < (e0.count : Int) := by rw [← hw2]; exact hlt
          omega
        · simp at h2
          subst h2
          exact le_refl _
    · have hl := lookupEntry_of_mem all ew hall (hsub ew hew)
      rw [pickStep_tie all wm e0 ew hw1 (by omega) heq.symm hl]
      have hcnt : e0.count = ew.count := by
        have : (e0.count : Int) = (ew.count : Int) := by rw [← heq, hw2]
        exact_mod_cast this
      by_cases hft : e0.firstT < ew.firstT
      · rw [if_pos hft]
        refine ⟨by simp, fun _ => ⟨e0, by simp, rfl, by rw [heq], ?_, ?_⟩⟩
        · intro f hf
          rcases List.mem_append.mp hf with h1 | h2
          · rw [hcnt]
            exact hmax f h1
          · simp at h2
            subst h2
            exact le_refl _
        · intro f hf hfc
          rcases List.mem_append.mp hf with h1 | h2
          · have := htie f h1 (by rw [← hcnt]; exact hfc)
            omega
          · simp at h2
            subst h2
            exact le_refl _
      · rw [if_neg hft]
        refine ⟨by simp, fun _ => ⟨ew, List.mem_append_left _ hew, hw1, hw2, ?_, ?_⟩⟩
        · intro f hf
          rcases List.mem_append.mp hf with h1 | h2
          · exact hmax f h1
          · simp at h2
            subst h2
            rw [hcnt]
        · intro f hf hfc
          rcases List.mem_append.mp hf with h1 | h2
          · exact htie f h1 hfc
          · simp at h2
            subst h2
            omega
    · rw [pickStep_lt all wm e0 (by omega) (by omega)]
      refine ⟨by simp, fun _ => ⟨ew, List.mem_append_left _ hew, hw1, hw2, ?_, ?_⟩⟩
      · intro f hf
        rcases List.mem_append.mp hf with h1 | h2
        · exact hmax f h1
        · simp at h2
          rw [h2]
          have h3 : (e0.count : Int) < (ew.count : Int) := by rw [← hw2]; exact hgt
          omega
      · intro f hf hfc
        rcases List.mem_append.mp hf with h1 | h2
        · exact htie f h1 hfc
        · exfalso
          simp at h2
          rw [h2] at hfc
          have h3 : (e0.count : Int) < (ew.count : Int) := by rw [← hw2]; exact hgt
          omega

lemma pickFold_inv (all : List VoteEntry)
    (hall : (all.map VoteEntry.cat).Nodup) (hpos : ∀ f ∈ all, 0 < f.count) :
    ∀ (suf pre : List VoteEntry) (wm : Option String × Int),
      pre ++ suf = all → PickInv pre wm →
      PickInv all (suf.foldl (pickStep all) wm) := by
  intro suf
  induction suf with
  | nil =>
    intro pre wm happ hinv
    rw [List.foldl_nil]
    rw [List.append_nil] at happ
    rw [← happ]
    exact hinv
  | cons e0 rest ih =>
    intro pre wm happ hinv
    rw [List.foldl_cons]
    apply ih (pre ++ [e0])
    · rw [List.append_assoc]
      simpa using happ
    · apply pickStep_inv all pre wm e0 hall hpos
      · intro f hf
        rw [← happ]
        exact List.mem_append_left _ hf
      · rw [← happ]
        exact List.mem_append_right _ (by simp)
      · exact hinv

/-! Claim theorems. -/

/-- C2: at reveal time each player gets `roundScore = 15` exactly when the
submitted answer equals `correctIndex` of the current question (0 otherwise,
in particular for an unanswered question), the cumulative score grows by
exactly that `roundScore`, and over any sequence of full rounds the score
equals its initial value plus the sum of the per-round points. -/
theorem revealAnswers_score_spec (s : GameState) (q : Question)
    (hq : s.currentQuestion = some q) (i : Nat) (hi : i < s.players.length)
    (rounds : List (Question × (String → Option Nat))) :
    ∃ h2 : i < (revealAnswers s).players.length,
      (revealAnswers s).players[i].roundScore
          = (if s.players[i].currentAnswer = some q.correctIndex then (15 : Int) else 0) ∧
      (revealAnswers s).players[i].score
          = s.players[i].score + (revealAnswers s).players[i].roundScore ∧
      ∃ h3 : i < (runReveals rounds s).players.length,
        (runReveals rounds s).players[i].score
            = s.players[i].score
              + (rounds.map (fun r => roundPoints r.1 (r.2 s.players[i].id))).sum := by
  have hlen : (revealAnswers s).players.length = s.players.length := by
    rw [revealAnswers_players_eq s q hq]; simp
  have h2 : i < (revealAnswers s).players.length := by rw [hlen]; exact hi
  have hget : (revealAnswers s).players[i] =
      { s.players[i] with
        score := s.players[i].score + roundPoints q s.players[i].currentAnswer,
        roundScore := roundPoints q s.players[i].currentAnswer } := by
    simp [revealAnswers_players_eq s q hq]
  obtain ⟨h3, hsum, _⟩ := runReveals_score_aux rounds s i hi
  exact ⟨h2, by rw [hget]; simp [roundPoints], by rw [hget], h3, hsum⟩

theorem revealAnswers_score_spec_witness :
    (revealLastState.currentQuestion = some sampleQ ∧ 0 < revealLastState.players.length) ∧
    ∃ h2 : 0 < (revealAnswers revealLastState).players.length,
      (revealAnswers revealLastState).players[0].roundScore
          = (if revealLastState.players[0].currentAnswer = some sampleQ.correctIndex
              then (15 : Int) else 0) ∧
      (revealAnswers revealLastState).players[0].score
          = revealLastState.players[0].score
            + (revealAnswers revealLastState).players[0].roundScore ∧
      ∃ h3 : 0 < (runReveals [] revealLastState).players.length,
        (runReveals [] revealLastState).players[0].score
            = revealLastState.players[0].score
              + (([] : List (Question × (String → Option Nat))).map
                  (fun r => roundPoints r.1 (r.2 revealLastState.players[0].id))).sum :=
  ⟨⟨by decide, by decide⟩,
   revealAnswers_score_spec revealLastState sampleQ (by decide) 0 (by decide) []⟩

/-- C6: a `SUBMIT_ANSWER` processed while the phase is anything other than
`QUESTION` leaves the whole game state unchanged (in particular it mutates no
`currentAnswer`). -/
theorem handleAnswerSubmit_phase_guard (playerId : String) (answerIndex now : Nat)
    (s : GameState) (h : s.phase ≠ GamePhase.QUESTION) :
    handleAnswerSubmit playerId answerIndex now s = s := by
  simp [handleAnswerSubmit, h]

theorem handleAnswerSubmit_phase_guard_witness :
    gameOverState.phase ≠ GamePhase.QUESTION ∧
      handleAnswerSubmit "g1" 2 100 gameOverState = gameOverState :=
  ⟨by decide, handleAnswerSubmit_phase_guard "g1" 2 100 gameOverState (by decide)⟩

/-- C4: a `JOIN` whose player id already occurs leaves the state (hence the
players list and every score) unchanged, a `JOIN` into a full lobby
(`MAX_PLAYERS = 4`) leaves the state unchanged, and in both cases exactly the
unchanged snapshot is still broadcast. -/
theorem addPlayer_duplicate_or_full (newPlayer : Player) (s : GameState) :
    ((∃ q ∈ s.players, q.id = newPlayer.id) → addPlayer newPlayer s = (s, [s])) ∧
    (MAX_PLAYERS ≤ s.players.length → addPlayer newPlayer s = (s, [s])) := by
  constructor
  · intro h
    obtain ⟨q, hq, hid⟩ := h
    have hf : (s.players.find? (fun p => p.id = newPlayer.id)).isSome := by
      rw [List.find?_isSome]
      exact ⟨q, hq, by simp [hid]⟩
    simp [addPlayer, hf]
  · intro h
    by_cases hf : (s.players.find? (fun p => p.id = newPlayer.id)).isSome
    · simp [addPlayer, hf]
    · simp [addPlayer, hf, h]

theorem addPlayer_duplicate_or_full_witness :
    ((∃ q ∈ sampleLobby.players, q.id = (mkVoter "p1" none 7).id) ∧
      addPlayer (mkVoter "p1" none 7) sampleLobby = (sampleLobby, [sampleLobby])) ∧
    (MAX_PLAYERS ≤ fullLobby.players.length ∧
      addPlayer (mkVoter "p9" none 7) fullLobby = (fullLobby, [fullLobby])) :=
  ⟨⟨by decide, (addPlayer_duplicate_or_full (mkVoter "p1" none 7) sampleLobby).1 (by decide)⟩,
   ⟨by decide, (addPlayer_duplicate_or_full (mkVoter "p9" none 7) fullLobby).2 (by decide)⟩⟩

/-- C9: when no player has a truthy `selectedCategory`, the resolver returns
a member of the offered category list (for every non-empty list and every
random draw). -/
theorem resolveWinner_fallback_mem (players : List Player) (cats : List String)
    (rand : Nat) (hv : ∀ p ∈ players, voteKey p = none) (hc : cats ≠ []) :
    ∃ c ∈ cats, resolveWinner players cats rand = some c := by
  have ht : tallyVotes players = [] := tallyGo_no_votes players [] hv
  have hlen : 0 < cats.length := List.length_pos.mpr hc
  have hlt : rand % cats.length < cats.length := Nat.mod_lt _ hlen
  refine ⟨cats.get ⟨rand % cats.length, hlt⟩, List.get_mem _ _ _, ?_⟩
  simp [resolveWinner, tallyVotes] at ht ⊢
  simp [ht, List.get?_eq_get hlt]

theorem resolveWinner_fallback_mem_witness :
    ((∀ p ∈ catSelState.players, voteKey p = none) ∧ (["A", "B"] : List String) ≠ []) ∧
      ∃ c ∈ (["A", "B"] : List String),
        resolveWinner catSelState.players ["A", "B"] 7 = some c :=
  ⟨⟨by decide, by decide⟩,
   resolveWinner_fallback_mem catSelState.players ["A", "B"] 7 (by decide) (by decide)⟩

lemma firstMax_cons (p : Player) (ps : List Player) :
    firstMax (p :: ps) = match firstMax ps with
      | none => some p
      | some q => if q.score ≤ p.score then some p else some q := rfl

lemma firstMax_eq_none_iff (l : List Player) : firstMax l = none ↔ l = [] := by
  cases l with
  | nil => simp [firstMax]
  | cons p ps =>
    rw [firstMax_cons]
    cases hx : firstMax ps with
    | none => simp
    | some q =>
      constructor
      · intro h
        have h2 : (if q.score ≤ p.score then some p else some q) = none := h
        split at h2 <;> cases h2
      · intro h
        cases h

lemma insertByScore_head (p : Player) (l : List Player) :
    (insertByScore p l).head? = some (match l.head? with
      | none => p
      | some q => if q.score ≤ p.score then p else q) := by
  cases l with
  | nil => rfl
  | cons q qs =>
    simp only [insertByScore, List.head?_cons]
    split <;> simp

lemma sortByScoreDesc_head (l : List Player) :
    (sortByScoreDesc l).head? = firstMax l := by
  induction l with
  | nil => rfl
  | cons p ps ih =>
    have h1 : sortByScoreDesc (p :: ps) = insertByScore p (sortByScoreDesc ps) := rfl
    rw [h1, insertByScore_head, ih, firstMax_cons]
    cases firstMax ps with
    | none => rfl
    | some q => simp only; split <;> rfl

lemma firstMax_spec (l : List Player) (p : Player) (h : firstMax l = some p) :
    (∀ q ∈ l, q.score ≤ p.score) ∧
    ∃ l1 l2, l = l1 ++ p :: l2 ∧ ∀ q ∈ l1, q.score < p.score := by
  induction l generalizing p with
  | nil => simp [firstMax] at h
  | cons x xs ih =>
    rw [firstMax_cons] at h
    cases hx : firstMax xs with
    | none =>
      rw [hx] at h
      simp only [Option.some.injEq] at h
      subst h
      have hxs : xs = [] := (firstMax_eq_none_iff xs).mp hx
      subst hxs
      exact ⟨by simp, [], [], by simp, by simp⟩
    | some q =>
      rw [hx] at h
      have h2 : (if q.score ≤ x.score then some x else some q) = some p := h
      obtain ⟨hmax, l1, l2, heq, hlt⟩ := ih q hx
      by_cases hc : q.score ≤ x.score
      · rw [if_pos hc] at h2
        simp only [Option.some.injEq] at h2
        subst h2
        refine ⟨?_, [], xs, by simp, by simp⟩
        intro r hr
        rcases List.mem_cons.mp hr with h1 | h2
        · subst h1; exact le_refl _
        · exact le_trans (hmax r h2) hc
      · rw [if_neg hc] at h2
        simp only [Option.some.injEq] at h2
        subst h2
        push_neg at hc
        refine ⟨?_, x :: l1, l2, by simp [heq], ?_⟩
        · intro r hr
          rcases List.mem_cons.mp hr with h1 | h2
          · subst h1; exact le_of_lt hc
          · exact hmax r h2
        · intro r hr
          rcases List.mem_cons.mp hr with h1 | h2
          · subst h1; exact hc
          · exact hlt r h2

/-- C10: `endGame` sets `winnerId` to the id of the earliest-joined player of
maximal cumulative score (`none` on an empty players list) and changes no
field other than `phase` (set to `GAME_OVER`) and `winnerId`. -/
theorem endGame_winner_spec (s : GameState) :
    (s.players = [] → (endGame s).winnerId = none) ∧
    (s.players ≠ [] →
      ∃ p l1 l2, s.players = l1 ++ p :: l2 ∧
        (endGame s).winnerId = some p.id ∧
        (∀ q ∈ s.players, q.score ≤ p.score) ∧
        (∀ q ∈ l1, q.score < p.score)) ∧
    (endGame s).phase = GamePhase.GAME_OVER ∧
    (endGame s).players = s.players ∧
    (endGame s).currentLevel = s.currentLevel ∧
    (endGame s).totalLevels = s.totalLevels ∧
    (endGame s).currentQuestionIndex = s.currentQuestionIndex ∧
    (endGame s).totalQuestionsInLevel = s.totalQuestionsInLevel ∧
    (endGame s).currentQuestion = s.currentQuestion ∧
    (endGame s).availableCategories = s.availableCategories ∧
    (endGame s).timeRemaining = s.timeRemaining ∧
    (endGame s).loading = s.loading ∧
    (endGame s).loadingMessage = s.loadingMessage := by
  have hwid : (endGame s).winnerId = (firstMax s.players).map Player.id := by
    simp [endGame, sortByScoreDesc_head]
  refine ⟨?_, ?_, by simp [endGame], by simp [endGame], by simp [endGame],
    by simp [endGame], by simp [endGame], by simp [endGame], by simp [endGame],
    by simp [endGame], by simp [endGame], by simp [endGame], by simp [endGame]⟩
  · intro h
    rw [hwid, (firstMax_eq_none_iff s.players).mpr h]
    rfl
  · intro h
    cases hx : firstMax s.players with
    | none => exact absurd ((firstMax_eq_none_iff s.players).mp hx) h
    | some p =>
      obtain ⟨hmax, l1, l2, heq, hlt⟩ := firstMax_spec s.players p hx
      exact ⟨p, l1, l2, heq, by rw [hwid, hx]; rfl, hmax, hlt⟩

theorem endGame_winner_spec_witness :
    fullLobby.players ≠ [] ∧
    ∃ p l1 l2, fullLobby.players = l1 ++ p :: l2 ∧
      (endGame fullLobby).winnerId = some p.id ∧
      (∀ q ∈ fullLobby.players, q.score ≤ p.score) ∧
      (∀ q ∈ l1, q.score < p.score) :=
  ⟨by decide, (endGame_winner_spec fullLobby).2.1 (by decide)⟩

/-- C1 (amended): for every snapshot in which at least one player has a
truthy `selectedCategory` and no voter carries the timestamp 0 (real
`Date.now()` timestamps are never 0; a zero timestamp trips the falsy check
in the `firstVotes` registry, see the counterexample), the resolver returns a
voted category of maximal vote count whose earliest voter (minimum
`lastActionTime` among its voters) is no later than that of every other
category with the same maximal count, and the result does not depend on the
random draw. -/
theorem resolveVote_tally_tiebreak (players : List Player) (cats : List String)
    (rand rand2 : Nat)
    (hv : ∃ p ∈ players, voteKey p ≠ none)
    (htz : ∀ p ∈ players, p.lastActionTime ≠ 0) :
    ∃ c, resolveWinner players cats rand = some c ∧
      0 < votesFor players c ∧
      (∀ d, votesFor players d ≤ votesFor players c) ∧
      (∀ d mc md, votesFor players d = votesFor players c →
        firstVoteTime players c = some mc → firstVoteTime players d = some md →
        mc ≤ md) ∧
      resolveWinner players cats rand = resolveWinner players cats rand2 := by
  have htv : tallyVotes players = tallyGo [] players := rfl
  have hcount : ∀ c, entryCount (tallyVotes players) c = votesFor players c := by
    intro c
    rw [htv, tallyGo_count players [] c]
    simp [entryCount, lookupEntry]
  have hft : ∀ c, entryFt (tallyVotes players) c = firstVoteTime players c := by
    intro c
    rw [htv, tallyGo_ft players [] c htz (by intro e he; cases he)]
    simp [entryFt, lookupEntry, optMin]
  have hnd : ((tallyVotes players).map VoteEntry.cat).Nodup := by
    rw [htv]
    exact tallyGo_cats_nodup players [] (by simp)
  have hpos : ∀ e ∈ tallyVotes players, 0 < e.count := by
    rw [htv]
    exact tallyGo_count_pos players [] (by intro e he; cases he)
  obtain ⟨p0, hp0, hk0⟩ := hv
  obtain ⟨c0, hc0⟩ := Option.ne_none_iff_exists'.mp hk0
  have hv0 : 0 < votesFor players c0 := by
    have hmem : p0 ∈ votersFor players c0 := List.mem_filter.mpr ⟨hp0, by simp [hc0]⟩
    exact List.length_pos.mpr (List.ne_nil_of_mem hmem)
  have hne : tallyVotes players ≠ [] := by
    intro h
    have h2 := hcount c0
    rw [h] at h2
    have h3 : entryCount [] c0 = 0 := rfl
    omega
  have hEmpty : (tallyVotes players).isEmpty = false := by
    cases htl : tallyVotes players with
    | nil => exact absurd htl hne
    | cons a l => rfl
  have hfold := pickFold_inv (tallyVotes players) hnd hpos (tallyVotes players) []
    (cats.get? 0, -1) (by simp) ⟨fun _ => rfl, fun hc => absurd rfl hc⟩
  obtain ⟨_, hgood⟩ := hfold
  obtain ⟨e, hem, hw1, hw2, hmax, htie⟩ := hgood hne
  have hres : resolveWinner players cats rand =
      ((tallyVotes players).foldl (pickStep (tallyVotes players)) (cats.get? 0, -1)).1 := by
    simp only [resolveWinner, hEmpty, Bool.false_eq_true, if_false]
  have hres2 : resolveWinner players cats rand2 =
      ((tallyVotes players).foldl (pickStep (tallyVotes players)) (cats.get? 0, -1)).1 := by
    simp only [resolveWinner, hEmpty, Bool.false_eq_true, if_false]
  have hl := lookupEntry_of_mem (tallyVotes players) e hnd hem
  have hecount : votesFor players e.cat = e.count := by
    rw [← hcount e.cat]
    simp [entryCount, hl]
  refine ⟨e.cat, by rw [hres, hw1], ?_, ?_, ?_, by rw [hres, hres2]⟩
  · rw [hecount]
    exact hpos e hem
  · intro d
    by_cases hd : votesFor players d = 0
    · rw [hd]
      omega
    · obtain ⟨f, hf, hfcat, hfcnt, hfft⟩ := entryCount_pos_elim (tallyVotes players) d
        (by rw [hcount d]; exact hd)
      rw [← hcount d, ← hfcnt, hecount]
      exact hmax f hf
  · intro d mc md hdc hmc hmd
    have hdpos : entryCount (tallyVotes players) d ≠ 0 := by
      rw [hcount d, hdc, hecount]
      have := hpos e hem
      omega
    obtain ⟨f, hf, hfcat, hfcnt, hfft⟩ := entryCount_pos_elim (tallyVotes players) d hdpos
    have hfe : f.count = e.count := by
      rw [hfcnt, hcount d, hdc, hecount]
    have hle := htie f hf hfe
    have hmc2 : entryFt (tallyVotes players) e.cat = some e.firstT := by
      simp [entryFt, hl]
    rw [hft e.cat] at hmc2
    rw [hmc2] at hmc
    have hmd2 := hfft
    rw [hft d] at hmd2
    rw [hmd2] at hmd
    have hmceq : e.firstT = mc := by
      injection hmc
    have hmdeq : f.firstT = md := by
      injection hmd
    rw [← hmceq, ← hmdeq]
    exact hle

theorem resolveVote_tally_tiebreak_witness :
    ((∃ p ∈ [mkVoter "p1" (some "A") 100, mkVoter "p2" (some "B") 90],
        voteKey p ≠ none) ∧
      (∀ p ∈ [mkVoter "p1" (some "A") 100, mkVoter "p2" (some "B") 90],
        p.lastActionTime ≠ 0)) ∧
    ∃ c, resolveWinner [mkVoter "p1" (some "A") 100, mkVoter "p2" (some "B") 90]
          ["A", "B"] 3 = some c ∧
      0 < votesFor [mkVoter "p1" (some "A") 100, mkVoter "p2" (some "B") 90] c ∧
      (∀ d, votesFor [mkVoter "p1" (some "A") 100, mkVoter "p2" (some "B") 90] d ≤
        votesFor [mkVoter "p1" (some "A") 100, mkVoter "p2" (some "B") 90] c) ∧
      (∀ d mc md,
        votesFor [mkVoter "p1" (some "A") 100, mkVoter "p2" (some "B") 90] d =
          votesFor [mkVoter "p1" (some "A") 100, mkVoter "p2" (some "B") 90] c →
        firstVoteTime [mkVoter "p1" (some "A") 100, mkVoter "p2" (some "B") 90] c =
          some mc →
        firstVoteTime [mkVoter "p1" (some "A") 100, mkVoter "p2" (some "B") 90] d =
          some md →
        mc ≤ md) ∧
      resolveWinner [mkVoter "p1" (some "A") 100, mkVoter "p2" (some "B") 90]
          ["A", "B"] 3 =
        resolveWinner [mkVoter "p1" (some "A") 100, mkVoter "p2" (some "B") 90]
          ["A", "B"] 8 :=
  ⟨⟨⟨mkVoter "p1" (some "A") 100, by decide, by decide⟩, by decide⟩,
   resolveVote_tally_tiebreak
     [mkVoter "p1" (some "A") 100, mkVoter "p2" (some "B") 90] ["A", "B"] 3 8
     ⟨mkVoter "p1" (some "A") 100, by decide, by decide⟩ (by decide)⟩

/-- C1 counterexample: categories A and B are tied two votes each; the
earliest A voter has the smaller `lastActionTime` (0 versus 30), so the claim
requires A, but the resolver returns B (the registry treats the stored
timestamp 0 as absent and overwrites it with 50). -/
theorem resolveVote_zero_time_cx :
    resolveWinner cxTiePlayers ["A", "B"] 0 = some "B" ∧
    votesFor cxTiePlayers "A" = votesFor cxTiePlayers "B" ∧
    firstVoteTime cxTiePlayers "A" = some 0 ∧
    firstVoteTime cxTiePlayers "B" = some 30 := by
  decide

/-- C3 counterexample: from `ANSWERS_REVEAL` on the last question, the first
`REQUEST_NEXT_STEP` advances to `LEVEL_COMPLETE`, and a second one processed
immediately afterward advances the game again, into category selection for
the next level. -/
theorem nextStep_double_advance_cx :
    (handleNextStepRequest [sampleQ] revealLastState).phase =
        GamePhase.LEVEL_COMPLETE ∧
    handleNextStepRequest [sampleQ] (handleNextStepRequest [sampleQ] revealLastState) ≠
        handleNextStepRequest [sampleQ] revealLastState ∧
    (handleNextStepRequest [sampleQ]
        (handleNextStepRequest [sampleQ] revealLastState)).phase =
      GamePhase.CATEGORY_SELECTION ∧
    (handleNextStepRequest [sampleQ]
        (handleNextStepRequest [sampleQ] revealLastState)).currentLevel =
      revealLastState.currentLevel + 1 := by
  decide

lemma handleLevelCompleteSync_phase (s : GameState) :
    (handleLevelCompleteSync s).phase = GamePhase.LEVEL_INTRO ∨
    (handleLevelCompleteSync s).phase = GamePhase.GAME_OVER ∨
    (handleLevelCompleteSync s).phase = GamePhase.CATEGORY_SELECTION := by
  unfold handleLevelCompleteSync
  split
  · split
    · left; rfl
    · split
      · right; left; simp [endGame]
      · right; right; simp [startGameSync]
  · right; right; simp [startGameSync]

lemma handleLevelCompleteSync_level (s : GameState) :
    (handleLevelCompleteSync s).currentLevel ≤ s.currentLevel + 1 := by
  unfold handleLevelCompleteSync
  split
  · split
    · simp only
      omega
    · split
      · simp [endGame]
      · simp [startGameSync]
  · simp [startGameSync]

lemma handleNextStepRequest_noop (queue : List Question) (s : GameState)
    (h1 : s.phase ≠ GamePhase.ANSWERS_REVEAL) (h2 : s.phase ≠ GamePhase.LEVEL_COMPLETE) :
    handleNextStepRequest queue s = s := by
  simp [handleNextStepRequest, h1, h2]

/-- C3 (amended): from `ANSWERS_REVEAL` the first `REQUEST_NEXT_STEP`
advances to the next `QUESTION` (index exactly incremented by one), after
which further requests are exact no-ops; after the last question it advances
to `LEVEL_COMPLETE` without touching index or level, a further request there
performs the legitimate level-complete advancement (the level grows by at
most one), and any request after that is a no-op — so no question and no
level is ever skipped, but the `LEVEL_COMPLETE` phase itself is not protected
against an immediately repeated request. -/
theorem nextStep_advance_spec (queue : List Question) (s : GameState)
    (h : s.phase = GamePhase.ANSWERS_REVEAL) :
    (s.currentQuestionIndex + 1 < queue.length →
      (handleNextStepRequest queue s).phase = GamePhase.QUESTION ∧
      (handleNextStepRequest queue s).currentQuestionIndex = s.currentQuestionIndex + 1 ∧
      (handleNextStepRequest queue s).currentLevel = s.currentLevel ∧
      handleNextStepRequest queue (handleNextStepRequest queue s) =
        handleNextStepRequest queue s) ∧
    (queue.length ≤ s.currentQuestionIndex + 1 →
      (handleNextStepRequest queue s).phase = GamePhase.LEVEL_COMPLETE ∧
      (handleNextStepRequest queue s).currentQuestionIndex = s.currentQuestionIndex ∧
      (handleNextStepRequest queue s).currentLevel = s.currentLevel ∧
      (handleNextStepRequest queue (handleNextStepRequest queue s)).currentLevel
          ≤ s.currentLevel + 1 ∧
      handleNextStepRequest queue
          (handleNextStepRequest queue (handleNextStepRequest queue s)) =
        handleNextStepRequest queue (handleNextStepRequest queue s)) := by
  constructor
  · intro hlt
    have hnle : ¬ queue.length ≤ s.currentQuestionIndex + 1 := by omega
    have hs1 : handleNextStepRequest queue s =
        startQuestionRound (queue.get ⟨s.currentQuestionIndex + 1, hlt⟩)
          (s.currentQuestionIndex + 1) s := by
      simp [handleNextStepRequest, h, hnle, nextTurn, hlt]
    refine ⟨by rw [hs1]; rfl, by rw [hs1]; rfl, by rw [hs1]; rfl, ?_⟩
    apply handleNextStepRequest_noop
    · rw [hs1]; simp [startQuestionRound]
    · rw [hs1]; simp [startQuestionRound]
  · intro hle
    have hs1 : handleNextStepRequest queue s = { s with phase := .LEVEL_COMPLETE } := by
      simp [handleNextStepRequest, h, hle]
    have hs2 : handleNextStepRequest queue (handleNextStepRequest queue s) =
        handleLevelCompleteSync { s with phase := .LEVEL_COMPLETE } := by
      rw [hs1]
      simp [handleNextStepRequest]
    refine ⟨by rw [hs1], by rw [hs1], by rw [hs1], ?_, ?_⟩
    · rw [hs2]
      have := handleLevelCompleteSync_level { s with phase := GamePhase.LEVEL_COMPLETE }
      simpa using this
    · rw [hs2]
      have hp := handleLevelCompleteSync_phase { s with phase := GamePhase.LEVEL_COMPLETE }
      rcases hp with hp | hp | hp <;>
        exact handleNextStepRequest_noop queue _ (by rw [hp]; simp) (by rw [hp]; simp)

theorem nextStep_advance_spec_witness :
    revealLastState.phase = GamePhase.ANSWERS_REVEAL ∧
    ([sampleQ].length ≤ revealLastState.currentQuestionIndex + 1 →
      (handleNextStepRequest [sampleQ] revealLastState).phase = GamePhase.LEVEL_COMPLETE ∧
      (handleNextStepRequest [sampleQ] revealLastState).currentQuestionIndex =
          revealLastState.currentQuestionIndex ∧
      (handleNextStepRequest [sampleQ] revealLastState).currentLevel =
          revealLastState.currentLevel ∧
      (handleNextStepRequest [sampleQ]
          (handleNextStepRequest [sampleQ] revealLastState)).currentLevel
          ≤ revealLastState.currentLevel + 1 ∧
      handleNextStepRequest [sampleQ]
          (handleNextStepRequest [sampleQ]
            (handleNextStepRequest [sampleQ] revealLastState)) =
        handleNextStepRequest [sampleQ]
          (handleNextStepRequest [sampleQ] revealLastState)) :=
  ⟨by decide, (nextStep_advance_spec [sampleQ] revealLastState (by decide)).2⟩

/-- C7 counterexample: in the terminal `GAME_OVER` phase a `VOTE_CATEGORY`
message from a known player still mutates the game state (there is no phase
guard on votes), so not every player-to-host message is a silent no-op. -/
theorem gameOver_vote_mutates_cx :
    (handleMessage [] 500 (.voteCategory "g1" "X") gameOverState).1 ≠ gameOverState := by
  decide

/-- C7 (amended): in the terminal `GAME_OVER` phase, `SUBMIT_ANSWER` and
`REQUEST_NEXT_STEP` are exact no-ops (no broadcast either), and no message
whatsoever can change the phase, the winner, the level or the question index;
however `JOIN` and `VOTE_CATEGORY` carry no phase guard, so they can still
mutate the players list (see the counterexample). -/
theorem gameOver_message_spec (queue : List Question) (now : Nat)
    (msg : NetworkMessage) (s : GameState) (h : s.phase = GamePhase.GAME_OVER) :
    (∀ pid idx, handleMessage queue now (.submitAnswer pid idx) s = (s, [])) ∧
    (handleMessage queue now .requestNextStep s = (s, [])) ∧
    (handleMessage queue now msg s).1.phase = GamePhase.GAME_OVER ∧
    (handleMessage queue now msg s).1.winnerId = s.winnerId ∧
    (handleMessage queue now msg s).1.currentLevel = s.currentLevel ∧
    (handleMessage queue now msg s).1.currentQuestionIndex = s.currentQuestionIndex := by
  have hsub : ∀ pid idx, handleMessage queue now (.submitAnswer pid idx) s = (s, []) := by
    intro pid idx
    simp [handleMessage, handleAnswerSubmit, h]
  have hnext : handleMessage queue now .requestNextStep s = (s, []) := by
    simp [handleMessage, handleNextStepRequest, h]
  refine ⟨hsub, hnext, ?_⟩
  cases msg with
  | join payload =>
    by_cases hf : (s.players.find? (fun q => q.id = payload.id)).isSome
    · simp [handleMessage, addPlayer, hf, h]
    · by_cases hl : MAX_PLAYERS ≤ s.players.length
      · simp [handleMessage, addPlayer, hf, hl, h]
      · simp [handleMessage, addPlayer, hf, hl, h]
  | voteCategory senderId category =>
    simp [handleMessage, handleCategoryVote, h]
  | submitAnswer senderId answerIndex =>
    rw [hsub senderId answerIndex]
    exact ⟨h, rfl, rfl, rfl⟩
  | requestState => exact ⟨h, rfl, rfl, rfl⟩
  | requestNextStep =>
    rw [hnext]
    exact ⟨h, rfl, rfl, rfl⟩
  | stateUpdate payload => exact ⟨h, rfl, rfl, rfl⟩
  | playerJoined => exact ⟨h, rfl, rfl, rfl⟩

theorem gameOver_message_spec_witness :
    gameOverState.phase = GamePhase.GAME_OVER ∧
    ((∀ pid idx, handleMessage [] 77 (.submitAnswer pid idx) gameOverState =
        (gameOverState, [])) ∧
      (handleMessage [] 77 .requestNextStep gameOverState = (gameOverState, [])) ∧
      (handleMessage [] 77 (.voteCategory "g1" "X") gameOverState).1.phase =
          GamePhase.GAME_OVER ∧
      (handleMessage [] 77 (.voteCategory "g1" "X") gameOverState).1.winnerId =
          gameOverState.winnerId ∧
      (handleMessage [] 77 (.voteCategory "g1" "X") gameOverState).1.currentLevel =
          gameOverState.currentLevel ∧
      (handleMessage [] 77 (.voteCategory "g1" "X") gameOverState).1.currentQuestionIndex =
          gameOverState.currentQuestionIndex) :=
  ⟨by decide, gameOver_message_spec [] 77 (.voteCategory "g1" "X") gameOverState (by decide)⟩

/-- C8 (amended): after the fetch completes, `totalQuestionsInLevel` is set
to the length of the actually returned question list; when that list is empty
the machine does not enter the `QUESTION` phase — the phase is left unchanged
with `loading` still true (it does not route to level completion); when it is
non-empty the machine starts the round at question index 0. -/
theorem resolveCategoryVote_empty_spec (rand : Nat) (gen : Nat → Nat → List Question)
    (hist : List String) (s : GameState) :
    (resolveCategoryVoteStep rand gen hist s).1.totalQuestionsInLevel =
        (resolveCategoryVoteStep rand gen hist s).2.1.length ∧
    ((resolveCategoryVoteStep rand gen hist s).2.1 = [] →
      (resolveCategoryVoteStep rand gen hist s).1.phase = s.phase ∧
      (resolveCategoryVoteStep rand gen hist s).1.loading = true) ∧
    ((resolveCategoryVoteStep rand gen hist s).2.1 ≠ [] →
      (resolveCategoryVoteStep rand gen hist s).1.phase = GamePhase.QUESTION ∧
      (resolveCategoryVoteStep rand gen hist s).1.currentQuestionIndex = 0) := by
  unfold resolveCategoryVoteStep
  dsimp only
  split
  · split
    · rename_i hpos
      refine ⟨rfl, ?_, fun _ => ⟨rfl, rfl⟩⟩
      intro hempty
      simp only at hempty
      rw [hempty] at hpos
      simp at hpos
    · rename_i hnpos
      refine ⟨rfl, fun _ => ⟨rfl, rfl⟩, ?_⟩
      intro hne
      exfalso
      apply hne
      simp only
      apply List.length_eq_zero.mp
      omega
  · split
    · rename_i hpos
      refine ⟨rfl, ?_, fun _ => ⟨rfl, rfl⟩⟩
      intro hempty
      simp only at hempty
      rw [hempty] at hpos
      simp at hpos
    · rename_i hnpos
      refine ⟨rfl, fun _ => ⟨rfl, rfl⟩, ?_⟩
      intro hne
      exfalso
      apply hne
      simp only
      apply List.length_eq_zero.mp
      omega

theorem resolveCategoryVote_empty_spec_witness :
    (resolveCategoryVoteStep 0 emptyGen [] catSelState).1.totalQuestionsInLevel =
        (resolveCategoryVoteStep 0 emptyGen [] catSelState).2.1.length ∧
    ((resolveCategoryVoteStep 0 emptyGen [] catSelState).2.1 = [] ∧
      (resolveCategoryVoteStep 0 emptyGen [] catSelState).1.phase = catSelState.phase ∧
      (resolveCategoryVoteStep 0 emptyGen [] catSelState).1.loading = true) :=
  ⟨(resolveCategoryVote_empty_spec 0 emptyGen [] catSelState).1,
   by decide,
   (resolveCategoryVote_empty_spec 0 emptyGen [] catSelState).2.1 (by decide)⟩

lemma filterUnique_spec (raw : List Question) :
    ∀ hist : List String,
      ((filterUnique raw hist).1.map normKey).Nodup ∧
      (∀ q ∈ (filterUnique raw hist).1, normKey q ∉ hist) ∧
      (∀ q ∈ (filterUnique raw hist).1, normKey q ∈ (filterUnique raw hist).2) ∧
      (∀ x ∈ hist, x ∈ (filterUnique raw hist).2) := by
  induction raw with
  | nil =>
    intro hist
    simp [filterUnique]
  | cons q qs ih =>
    intro hist
    by_cases hk : normKey q ∈ hist
    · have hr : filterUnique (q :: qs) hist = filterUnique qs hist := by
        simp [filterUnique, hk]
      rw [hr]
      exact ih hist
    · obtain ⟨ih1, ih2, ih3, ih4⟩ := ih (normKey q :: hist)
      have hr : filterUnique (q :: qs) hist =
          (q :: (filterUnique qs (normKey q :: hist)).1,
            (filterUnique qs (normKey q :: hist)).2) := by
        simp [filterUnique, hk]
      rw [hr]
      refine ⟨?_, ?_, ?_, ?_⟩
      · simp only [List.map_cons, List.nodup_cons]
        refine ⟨?_, ih1⟩
        intro hmem
        obtain ⟨q2, hq2, hkeq⟩ := List.mem_map.mp hmem
        exact ih2 q2 hq2 (by rw [hkeq]; exact List.mem_cons_self _ _)
      · intro q2 hq2
        rcases List.mem_cons.mp hq2 with h1 | h2
        · subst h1; exact hk
        · intro hin; exact ih2 q2 h2 (List.mem_cons_of_mem _ hin)
      · intro q2 hq2
        rcases List.mem_cons.mp hq2 with h1 | h2
        · subst h1; exact ih4 _ (List.mem_cons_self _ _)
        · exact ih3 q2 h2
      · intro x hx
        exact ih4 x (List.mem_cons_of_mem _ hx)

lemma fetchGo_spec (gen : Nat → Nat → List Question) (totalNeeded : Nat) :
    ∀ (fuel attempts : Nat) (gathered : List Question) (hist : List String)
      (log : List (Nat × Nat)),
      (gathered.map normKey).Nodup →
      (∀ q ∈ gathered, normKey q ∈ hist) →
      (((fetchGo gen totalNeeded fuel attempts gathered hist log).questions.map normKey).Nodup ∧
       (∀ q ∈ (fetchGo gen totalNeeded fuel attempts gathered hist log).questions,
          normKey q ∈ (fetchGo gen totalNeeded fuel attempts gathered hist log).hist) ∧
       (∀ x ∈ hist, x ∈ (fetchGo gen totalNeeded fuel attempts gathered hist log).hist) ∧
       (∀ q ∈ (fetchGo gen totalNeeded fuel attempts gathered hist log).questions,
          q ∈ gathered ∨ normKey q ∉ hist) ∧
       (fetchGo gen totalNeeded fuel attempts gathered hist log).log.length
          ≤ log.length + fuel ∧
       (∀ e ∈ (fetchGo gen totalNeeded fuel attempts gathered hist log).log,
          e ∈ log ∨ e.2 = max (totalNeeded - e.1) 4)) := by
  intro fuel
  induction fuel with
  | zero =>
    intro attempts gathered hist log hnd hmem
    exact ⟨hnd, hmem, fun x hx => hx, fun q hq => Or.inl hq, by simp [fetchGo],
      fun e he => Or.inl he⟩
  | succ fuel ih =>
    intro attempts gathered hist log hnd hmem
    by_cases hlt : gathered.length < totalNeeded
    · have hr : fetchGo gen totalNeeded (fuel + 1) attempts gathered hist log =
          fetchGo gen totalNeeded fuel (attempts + 1)
            (gathered ++
              (filterUnique (gen attempts (max (totalNeeded - gathered.length) 4)) hist).1)
            (filterUnique (gen attempts (max (totalNeeded - gathered.length) 4)) hist).2
            (log ++ [(gathered.length, max (totalNeeded - gathered.length) 4)]) := by
        simp [fetchGo, hlt]
      obtain ⟨f1, f2, f3, f4⟩ :=
        filterUnique_spec (gen attempts (max (totalNeeded - gathered.length) 4)) hist
      have hnd2 : ((gathered ++
          (filterUnique (gen attempts (max (totalNeeded - gathered.length) 4)) hist).1).map
            normKey).Nodup := by
        rw [List.map_append, List.nodup_append]
        refine ⟨hnd, f1, ?_⟩
        intro a ha hb
        obtain ⟨g, hg, hga⟩ := List.mem_map.mp ha
        obtain ⟨u, hu, hua⟩ := List.mem_map.mp hb
        exact f2 u hu (by rw [hua, ← hga]; exact hmem g hg)
      have hmem2 : ∀ q ∈ gathered ++
          (filterUnique (gen attempts (max (totalNeeded - gathered.length) 4)) hist).1,
          normKey q ∈
            (filterUnique (gen attempts (max (totalNeeded - gathered.length) 4)) hist).2 := by
        intro q hq
        rcases List.mem_append.mp hq with h1 | h2
        · exact f4 _ (hmem q h1)
        · exact f3 q h2
      obtain ⟨g1, g2, g3, g4, g5, g6⟩ := ih (attempts + 1) _ _ _ hnd2 hmem2
      rw [hr]
      refine ⟨g1, g2, ?_, ?_, ?_, ?_⟩
      · intro x hx
        exact g3 x (f4 x hx)
      · intro q hq
        rcases g4 q hq with h1 | h2
        · rcases List.mem_append.mp h1 with ha | hb
          · exact Or.inl ha
          · exact Or.inr (f2 q hb)
        · exact Or.inr (fun hin => h2 (f4 _ hin))
      · calc (fetchGo gen totalNeeded fuel (attempts + 1) _ _ _).log.length
            ≤ (log ++ [(gathered.length, max (totalNeeded - gathered.length) 4)]).length
                + fuel := g5
          _ = log.length + (fuel + 1) := by simp; omega
      · intro e he
        rcases g6 e he with h1 | h2
        · rcases List.mem_append.mp h1 with ha | hb
          · exact Or.inl ha
          · rcases List.mem_singleton.mp hb with rfl
            exact Or.inr rfl
        · exact Or.inr h2
    · have hr : fetchGo gen totalNeeded (fuel + 1) attempts gathered hist log =
          ⟨gathered, hist, log⟩ := by
        simp [fetchGo, hlt]
      rw [hr]
      exact ⟨hnd, hmem, fun x hx => hx, fun q hq => Or.inl hq, by simp,
        fun e he => Or.inl he⟩

lemma fetchUnique_call_spec (gen : Nat → Nat → List Question) (n : Nat)
    (hist0 : List String) :
    ((fetchUniqueQuestions gen n hist0).questions.map normKey).Nodup ∧
    (∀ q ∈ (fetchUniqueQuestions gen n hist0).questions,
        normKey q ∈ (fetchUniqueQuestions gen n hist0).hist) ∧
    (∀ x ∈ hist0, x ∈ (fetchUniqueQuestions gen n hist0).hist) ∧
    (∀ q ∈ (fetchUniqueQuestions gen n hist0).questions, normKey q ∉ hist0) ∧
    (fetchUniqueQuestions gen n hist0).log.length ≤ 3 ∧
    (∀ e ∈ (fetchUniqueQuestions gen n hist0).log, e.2 = max (n - e.1) 4) ∧
    (fetchUniqueQuestions gen n hist0).questions.length ≤ n := by
  obtain ⟨g1, g2, g3, g4, g5, g6⟩ :=
    fetchGo_spec gen n 3 0 [] hist0 [] (by simp) (by simp)
  have hq : (fetchUniqueQuestions gen n hist0).questions =
      (fetchGo gen n 3 0 [] hist0 []).questions.take n := rfl
  have hh : (fetchUniqueQuestions gen n hist0).hist =
      (fetchGo gen n 3 0 [] hist0 []).hist := rfl
  have hl : (fetchUniqueQuestions gen n hist0).log =
      (fetchGo gen n 3 0 [] hist0 []).log := rfl
  have hsub : ∀ q ∈ (fetchUniqueQuestions gen n hist0).questions,
      q ∈ (fetchGo gen n 3 0 [] hist0 []).questions := by
    intro q hq2
    rw [hq] at hq2
    exact (List.take_sublist _ _).subset hq2
  refine ⟨?_, ?_, ?_, ?_, ?_, ?_, ?_⟩
  · rw [hq, List.map_take]
    exact (List.take_sublist _ _).nodup g1
  · intro q hq2
    rw [hh]
    exact g2 q (hsub q hq2)
  · intro x hx
    rw [hh]
    exact g3 x hx
  · intro q hq2
    rcases g4 q (hsub q hq2) with h1 | h2
    · simp at h1
    · exact h2
  · rw [hl]
    simpa using g5
  · intro e he
    rw [hl] at he
    rcases g6 e he with h1 | h2
    · simp at h1
    · exact h2
  · rw [hq]
    exact List.length_take_le _ _

lemma runSessionGo_spec (sgen : Nat → Nat → Nat → List Question) :
    ∀ (reqs : List Nat) (i : Nat) (served : List Question) (hist : List String),
      (served.map normKey).Nodup →
      (∀ q ∈ served, normKey q ∈ hist) →
      ((runSessionGo sgen i served hist reqs).1.map normKey).Nodup := by
  intro reqs
  induction reqs with
  | nil =>
    intro i served hist hnd hmem
    simpa [runSessionGo] using hnd
  | cons n rest ih =>
    intro i served hist hnd hmem
    have hr : runSessionGo sgen i served hist (n :: rest) =
        runSessionGo sgen (i + 1)
          (served ++ (fetchUniqueQuestions (sgen i) n hist).questions)
          (fetchUniqueQuestions (sgen i) n hist).hist rest := by
      simp [runSessionGo]
    rw [hr]
    obtain ⟨c1, c2, c3, c4, _, _, _⟩ := fetchUnique_call_spec (sgen i) n hist
    apply ih
    · rw [List.map_append, List.nodup_append]
      refine ⟨hnd, c1, ?_⟩
      intro a ha hb
      obtain ⟨g, hg, hga⟩ := List.mem_map.mp ha
      obtain ⟨u, hu, hua⟩ := List.mem_map.mp hb
      exact c4 u hu (by rw [hua, ← hga]; exact hmem g hg)
    · intro q hq
      rcases List.mem_append.mp hq with h1 | h2
      · exact c3 _ (hmem q h1)
      · exact c2 q h2

/-- C5: over a whole session of fetch calls threading the registry, no two
served questions share a trimmed lower-cased text; each single call makes at
most 3 supplier attempts, each attempt requests exactly
`max(stillNeeded, 4)` candidates (hence at least that many), and each call
returns at most `totalNeeded` questions. -/
theorem fetchUnique_session_spec (gen : Nat → Nat → List Question)
    (totalNeeded : Nat) (hist0 : List String)
    (sgen : Nat → Nat → Nat → List Question) (requests : List Nat)
    (e : Nat × Nat) (he : e ∈ (fetchUniqueQuestions gen totalNeeded hist0).log) :
    (((runSession sgen requests).1.map normKey).Nodup) ∧
    (fetchUniqueQuestions gen totalNeeded hist0).log.length ≤ 3 ∧
    e.2 = max (totalNeeded - e.1) 4 ∧
    (fetchUniqueQuestions gen totalNeeded hist0).questions.length ≤ totalNeeded := by
  obtain ⟨_, _, _, _, c5, c6, c7⟩ := fetchUnique_call_spec gen totalNeeded hist0
  exact ⟨runSessionGo_spec sgen requests 0 [] [] (by simp) (by simp),
    c5, c6 e he, c7⟩

theorem fetchUnique_session_spec_witness :
    ((0, 8) ∈ (fetchUniqueQuestions constGen 8 []).log) ∧
    ((((runSession (fun _ => constGen) [8, 8]).1.map normKey).Nodup) ∧
      (fetchUniqueQuestions constGen 8 []).log.length ≤ 3 ∧
      (0, 8).2 = max (8 - (0, 8).1) 4 ∧
      (fetchUniqueQuestions constGen 8 []).questions.length ≤ 8) :=
  ⟨by decide,
   fetchUnique_session_spec constGen 8 [] (fun _ => constGen) [8, 8] (0, 8) (by decide)⟩

/-- C8 counterexample: when the fetcher comes back empty the machine does not
route to level completion (nor anywhere else): it stays in
`CATEGORY_SELECTION` with `loading` still true. -/
theorem resolveCategoryVote_empty_stall_cx :
    (resolveCategoryVoteStep 0 emptyGen [] catSelState).2.1 = [] ∧
    (resolveCategoryVoteStep 0 emptyGen [] catSelState).1.phase =
        GamePhase.CATEGORY_SELECTION ∧
    (resolveCategoryVoteStep 0 emptyGen [] catSelState).1.phase ≠
        GamePhase.LEVEL_COMPLETE ∧
    (resolveCategoryVoteStep 0 emptyGen [] catSelState).1.loading = true ∧
    (resolveCategoryVoteStep 0 emptyGen [] catSelState).1.totalQuestionsInLevel = 0 := by
  decide

end QuizParty
